import Mathlib

/-!
Verification of the JapaneseWordCloudGUI tokenization / co-occurrence pipeline.

Shallow embedding of the repository's core pipeline:

* `services/tokenization.py` — `TokenizationService.tokenize_text`,
  `apply_merge_rules_to_line`, `merge_lines`;
* `services/visualization.py` — the co-occurrence pair extraction and the
  graph-building stages of `VisualizationService.build_network_figure`;
* `main.py` — the GUI monolith's variants (`tokenize_text`,
  `apply_merge_rules_and_update_edit_area`, `generate_network`).

The morphological analyzer (MeCab / Sudachi) is an external capability and is
modelled as a parameter `Analyzer : String → List (String × String)` returning
(surface, part-of-speech) pairs, exactly the narrow interface the code uses.

Strings model Python strings (identity = exact equality, `len` = character
count, comparison = code-point lexicographic, matching Python). Stopword sets
and frequency-map key sets are modelled as lists with membership, the only
operation the code performs on them. Graphs are modelled as weighted edge
lists; every graph the pipeline manipulates is built exclusively through
`add_edge` / rebuilt from an edge list, so it never holds an isolated node and
the edge-list representation is exact (node iteration order is the networkx
insertion order, reproduced by first-occurrence deduplication of endpoints).
-/

namespace WordCloud

/-- Code-point lexicographic comparison of character lists — the order Python
uses on strings. (Defined structurally so that concrete instances reduce in the
kernel; `String.le` itself is iterator-based and does not.) -/
def charListLE : List Char → List Char → Bool
  | [], _ => true
  | _ :: _, [] => false
  | x :: xs, y :: ys => if x < y then true else if y < x then false else charListLE xs ys

/-- Python string comparison `a <= b`. -/
def strLE (a b : String) : Bool := charListLE a.data b.data

/-- Fields of a character list split at every separator character (empty fields
kept), the semantics of Python `str.split(sep)` for a one-character `sep`. -/
def splitFieldsData (p : Char → Bool) : List Char → List String
  | [] => [""]
  | c :: cs =>
    match splitFieldsData p cs with
    | [] => []
    | l :: ls => if p c then "" :: l :: ls else String.mk (c :: l.data) :: ls

/-- Python `text.split("\n")`. -/
def splitLines (s : String) : List String :=
  splitFieldsData (fun c => decide (c = '\n')) s.data

/-- Python `text.split()`: whitespace-delimited fields, empties dropped. -/
def pySplit (s : String) : List String :=
  (splitFieldsData Char.isWhitespace s.data).filter (fun t => decide (t ≠ ""))

/-- Python `text.strip()`. -/
def pyStrip (s : String) : String :=
  String.mk (((s.data.dropWhile Char.isWhitespace).reverse.dropWhile
    Char.isWhitespace).reverse)

/-- The analyzer adapter boundary: `analyze(text) -> [(surface, pos)]`
(`parse_with_pos` in both `main.py` and `services/tokenization.py`). -/
def Analyzer : Type := String → List (String × String)

/-- `parse_with_pos`: split the analyzer output into parallel surface and
part-of-speech lists (tokenization.py lines 32–38). -/
def parse_with_pos (analyze : Analyzer) (text : String) : List String × List String :=
  ((analyze text).map Prod.fst, (analyze text).map Prod.snd)

/-- The stopword filter of `tokenize_text`
(tokenization.py line 56: `[s for s in surfaces if s not in stop_set and len(s) > 1]`). -/
def tokensFilter (stop_words : List String) (surfaces : List String) : List String :=
  surfaces.filter (fun s => decide (s ∉ stop_words) && decide (1 < s.length))

/-- `Counter(tokens)`: occurrence counts as an association list in
first-occurrence order (Python dict insertion order). -/
def bumpCount (acc : List (String × Nat)) (t : String) : List (String × Nat) :=
  match acc with
  | [] => [(t, 1)]
  | (q, c) :: rest => if q = t then (q, c + 1) :: rest else (q, c) :: bumpCount rest t

def countTokens (tokens : List String) : List (String × Nat) :=
  tokens.foldl bumpCount []

/-- The record returned by `TokenizationService.tokenize_text`
(tokenization.py lines 10–18). -/
structure TokenizationResult where
  tokens : List String
  pos_cache : List String
  word_freq : List (String × Nat)
  pre_tokens_lines : List (List String)
  original_lines : List String
  surfaces : List String
  pos_list : List String
deriving DecidableEq

/-- `TokenizationService.tokenize_text` (tokenization.py lines 40–68). -/
def tokenize_text (analyze : Analyzer) (text : String) (stop_words : List String) :
    TokenizationResult :=
  let lines := splitLines text
  let pre_tokens_lines := lines.map (fun raw_line => (parse_with_pos analyze raw_line).1)
  let original_lines := pre_tokens_lines.filterMap (fun surfaces =>
    let line_tokens := tokensFilter stop_words surfaces
    if line_tokens = [] then none else some (String.intercalate " " line_tokens))
  let surfaces := (parse_with_pos analyze text).1
  let pos_list := (parse_with_pos analyze text).2
  let tokens := tokensFilter stop_words surfaces
  let pos_cache := ((surfaces.zip pos_list).filter
    (fun sp => decide (sp.1 ∉ stop_words) && decide (1 < sp.1.length))).map Prod.snd
  { tokens := tokens
    pos_cache := pos_cache
    word_freq := countTokens tokens
    pre_tokens_lines := pre_tokens_lines
    original_lines := original_lines
    surfaces := surfaces
    pos_list := pos_list }

/-- A user-defined merge rule `{"len": n, "seq": (...), "merged": s}`.
The `len` field is stored separately from the sequence, as in the Python dict
(the GUI validates `len = |seq|` at insertion, but the engine reads both). -/
structure MergeRule where
  len : Nat
  seq : List String
  merged : String
deriving DecidableEq

/-- Stable insertion of a rule into a length-descending sorted list: the rule
goes after all rules of greater-or-equal length, reproducing Python's stable
`sorted(merge_rules, key=lambda r: r["len"], reverse=True)`. -/
def insertRuleDesc (r : MergeRule) : List MergeRule → List MergeRule
  | [] => [r]
  | x :: xs => if x.len < r.len then r :: x :: xs else x :: insertRuleDesc r xs

def sortRulesDesc (rules : List MergeRule) : List MergeRule :=
  rules.foldl (fun acc r => insertRuleDesc r acc) []

/-- First rule (in the already-sorted order) matching exactly at the current
position: `i + n <= n_tokens and tuple(tokens_line[i:i+n]) == r["seq"]`. -/
def findMatch (rules : List MergeRule) (rest : List String) : Option MergeRule :=
  match rules with
  | [] => none
  | r :: rs =>
    if r.len ≤ rest.length ∧ rest.take r.len = r.seq then some r else findMatch rs rest

/-- The scan loop of `apply_merge_rules_to_line` (tokenization.py lines 73–88).
The Python `while i < n_tokens` loop is modelled on the remaining suffix with a
fuel counter; with fuel = input length the two agree exactly for every rule set
the program can construct (the GUI only inserts rules of length 2..4, and each
loop iteration then consumes at least one token). -/
def mergeLoop (rules : List MergeRule) : Nat → List String → List String
  | 0, rest => rest
  | _ + 1, [] => []
  | fuel + 1, x :: xs =>
    match findMatch rules (x :: xs) with
    | some r => r.merged :: mergeLoop rules fuel ((x :: xs).drop r.len)
    | none => x :: mergeLoop rules fuel xs

/-- `TokenizationService.apply_merge_rules_to_line` (tokenization.py lines
70–88); `JapaneseTextAnalyzer.apply_rules_to_tokens` (main.py lines 1676–1696)
is the same algorithm verbatim. -/
def apply_merge_rules_to_line (tokens_line : List String) (merge_rules : List MergeRule) :
    List String :=
  mergeLoop (sortRulesDesc merge_rules) tokens_line.length tokens_line

/-- `TokenizationService.merge_lines` (tokenization.py lines 90–107): apply the
merge rules per line, then stopword-filter (`t not in stop_set and len(t) > 1`)
and flatten. Returns (merged_lines, filtered_tokens). -/
def merge_lines (pre_tokens_lines : List (List String)) (merge_rules : List MergeRule)
    (stop_words : List String) : List (List String) × List String :=
  let merged_lines := pre_tokens_lines.map (fun tokens_line =>
    if merge_rules ≠ [] then apply_merge_rules_to_line tokens_line merge_rules
    else tokens_line)
  (merged_lines, merged_lines.flatMap (fun new_line =>
    new_line.filter (fun t => decide (t ∉ stop_words) && decide (1 < t.length))))

/-- The token-stream half of `JapaneseTextAnalyzer.apply_merge_rules_and_update_edit_area`
(main.py lines 1723–1728): apply the rules per line, then filter with
`t not in self.stop_words and len(t) > 0` and flatten into the edit area. -/
def main_merge_filtered_tokens (pre_tokens_lines : List (List String))
    (merge_rules : List MergeRule) (stop_words : List String) : List String :=
  pre_tokens_lines.flatMap (fun tokens_line =>
    let new_line :=
      if merge_rules ≠ [] then apply_merge_rules_to_line tokens_line merge_rules
      else tokens_line
    new_line.filter (fun t => decide (t ∉ stop_words) && decide (0 < t.length)))

/-- Outcome of the GUI entry point `JapaneseTextAnalyzer.tokenize_text`
(main.py lines 674–724): the empty-input warning (line 681), the
analysis-failure error (line 707), or the computed state. -/
inductive MainTokenizeOutcome where
  | emptyInput : MainTokenizeOutcome
  | analysisFailed : MainTokenizeOutcome
  | ok : List String → List String → List (List String) → List String → MainTokenizeOutcome
deriving DecidableEq

/-- `JapaneseTextAnalyzer.tokenize_text` (main.py lines 674–724), restricted to
its data flow: strip the raw text; report `emptyInput` when nothing remains;
parse per line (pre_tokens_lines, original_lines); parse the whole text and
report `analysisFailed` when it yields zero surfaces (lines 705–708); else
return the filtered tokens with the position-aligned pos cache
(`[p for s, p in zip(surfaces, pos_list) if s in self.tokens]`, line 713). -/
def main_tokenize_text (analyze : Analyzer) (raw_text : String)
    (stop_words : List String) : MainTokenizeOutcome :=
  let text := pyStrip raw_text
  if text = "" then .emptyInput
  else
    let pre_tokens_lines := (splitLines text).map
      (fun raw_line => (parse_with_pos analyze raw_line).1)
    let original_lines := pre_tokens_lines.filterMap (fun surfaces =>
      let line_tokens := tokensFilter stop_words surfaces
      if line_tokens = [] then none else some (String.intercalate " " line_tokens))
    let surfaces := (parse_with_pos analyze text).1
    let pos_list := (parse_with_pos analyze text).2
    if surfaces = [] then .analysisFailed
    else
      let tokens := tokensFilter stop_words surfaces
      let pos_cache := ((surfaces.zip pos_list).filter
        (fun sp => decide (sp.1 ∈ tokens))).map Prod.snd
      .ok tokens pos_cache pre_tokens_lines original_lines

/-- The canonical co-occurrence key `tuple(sorted([a, b]))`: the two surface
forms in lexicographic (code-point) order. -/
def canonPair (a b : String) : String × String :=
  if strLE a b then (a, b) else (b, a)

/-- `_collapse_consecutive` (visualization.py lines 85–92): drop each token
equal to its predecessor. -/
def collapseConsecutiveAux : Option String → List String → List String
  | _, [] => []
  | prev, x :: xs =>
    if some x = prev then collapseConsecutiveAux (some x) xs
    else x :: collapseConsecutiveAux (some x) xs

def collapseConsecutive (seq : List String) : List String :=
  collapseConsecutiveAux none seq

/-- Sliding-window pair emission (visualization.py lines 95–106, main.py lines
1047–1057): for each position `i` with `tokens_used[i]` in the frequency map,
pair it with every later position `j < i + window_size` whose token is also in
the frequency map. The head step pairs position `i` with the next
`window_size - 1` positions, i.e. `range(i + 1, min(i + window_size, len))`. -/
def slidingPairs (window_size : Nat) (word_freq : List String) :
    List String → List (String × String)
  | [] => []
  | x :: rest =>
    (if x ∈ word_freq then
      ((rest.take (window_size - 1)).filter (fun y => decide (y ∈ word_freq))).map
        (fun y => canonPair x y)
    else []) ++ slidingPairs window_size word_freq rest

/-- All `i < j` pairs of one line (visualization.py lines 116–118): the inner
`for j in range(i + 1, len(line_tokens))` over an already-filtered line. -/
def allPairs : List String → List (String × String)
  | [] => []
  | x :: rest => rest.map (fun y => canonPair x y) ++ allPairs rest

/-- All `i < j` pairs of one fallback line (visualization.py lines 133–139):
both the `i` and `j` tokens are checked against the frequency map at emission
time. -/
def fbPairs (word_freq : List String) : List String → List (String × String)
  | [] => []
  | x :: rest =>
    (if x ∈ word_freq then
      (rest.filter (fun y => decide (y ∈ word_freq))).map (fun y => canonPair x y)
    else []) ++ fbPairs word_freq rest

/-- Keep the first occurrence of each element (the `seen_pairs` set of the
per-line deduplication, visualization.py lines 119–122). -/
def firstDedupAux {α : Type} [DecidableEq α] (seen : List α) : List α → List α
  | [] => []
  | x :: xs =>
    if x ∈ seen then firstDedupAux seen xs
    else x :: firstDedupAux (x :: seen) xs

def firstDedup {α : Type} [DecidableEq α] (l : List α) : List α :=
  firstDedupAux [] l

/-- The processed token sequence of one pre-tokenized line in line mode
(visualization.py lines 112–114): frequency-map filter, then optional
consecutive-duplicate collapsing. -/
def processedPreLine (word_freq : List String) (collapse : Bool)
    (surfaces : List String) : List String :=
  let line_tokens := surfaces.filter (fun s => decide (s ∈ word_freq))
  if collapse then collapseConsecutive line_tokens else line_tokens

/-- Pairs contributed by one pre-tokenized line in line mode (visualization.py
lines 109–124): all `i < j` pairs of the processed line, optionally
deduplicated within the line. -/
def linePairsPre (word_freq : List String) (collapse dedup : Bool)
    (surfaces : List String) : List (String × String) :=
  let raw := allPairs (processedPreLine word_freq collapse surfaces)
  if dedup then firstDedup raw else raw

/-- The processed token sequence of one fallback line (visualization.py lines
129–131): whitespace split, then optional collapsing (the frequency filter is
applied at pair-emission time in this branch). -/
def processedFbLine (collapse : Bool) (line : String) : List String :=
  let line_tokens := pySplit line
  if collapse then collapseConsecutive line_tokens else line_tokens

/-- Pairs contributed by one fallback line (visualization.py lines 126–145). -/
def lineFallbackPairs (word_freq : List String) (collapse dedup : Bool)
    (line : String) : List (String × String) :=
  let raw := fbPairs word_freq (processedFbLine collapse line)
  if dedup then firstDedup raw else raw

/-- The co-occurrence pair extraction of `build_network_figure`
(visualization.py lines 94–145; main.py lines 1047–1104 is the same logic):
sliding mode over the flat token stream, otherwise per-line extraction from the
pre-tokenized lines when available, else from the space-joined filtered lines. -/
def extract_cooc_pairs (window_mode : String) (window_size : Nat)
    (collapse_consecutive dedup_pairs_per_line : Bool) (word_freq : List String)
    (tokens : List String) (pre_tokens_lines : List (List String))
    (original_lines : List String) : List (String × String) :=
  if window_mode = "sliding" then
    slidingPairs window_size word_freq
      (if collapse_consecutive then collapseConsecutive tokens else tokens)
  else if pre_tokens_lines ≠ [] then
    (pre_tokens_lines.filter (fun surfaces => decide (surfaces ≠ []))).flatMap
      (linePairsPre word_freq collapse_consecutive dedup_pairs_per_line)
  else
    (original_lines.filter (fun line => decide (pyStrip line ≠ ""))).flatMap
      (lineFallbackPairs word_freq collapse_consecutive dedup_pairs_per_line)

/-- A weighted undirected edge `(word1, word2, weight)`. -/
abbrev Edge : Type := String × String × Nat

/-- The graph-construction configuration consumed from the UI layer. -/
structure BuildConfig where
  min_cooc : Nat
  edge_count : Nat
  self_loop_mode : String
deriving DecidableEq

/-- `Counter(cooc_pairs)` as an association list in first-occurrence order. -/
def bumpPair (acc : List ((String × String) × Nat)) (p : String × String) :
    List ((String × String) × Nat) :=
  match acc with
  | [] => [(p, 1)]
  | (q, c) :: rest => if q = p then (q, c + 1) :: rest else (q, c) :: bumpPair rest p

def countPairs (cooc_pairs : List (String × String)) : List ((String × String) × Nat) :=
  cooc_pairs.foldl bumpPair []

/-- `Counter({p: c for p, c in cooc_count.items() if c >= min_cooc})`
(visualization.py line 148): order-preserving threshold filter. -/
def filterMinCooc (counts : List ((String × String) × Nat)) (min_cooc : Nat) :
    List ((String × String) × Nat) :=
  counts.filter (fun pc => decide (min_cooc ≤ pc.2))

/-- Stable insertion into a count-descending list (equal counts keep their
first-encountered order, as `Counter.most_common` guarantees). -/
def insertByCountDesc (x : (String × String) × Nat) :
    List ((String × String) × Nat) → List ((String × String) × Nat)
  | [] => [x]
  | y :: ys => if y.2 < x.2 then x :: y :: ys else y :: insertByCountDesc x ys

def sortByCountDesc (counts : List ((String × String) × Nat)) :
    List ((String × String) × Nat) :=
  counts.foldl (fun acc x => insertByCountDesc x acc) []

/-- `cooc_count.most_common(edge_count)`. -/
def most_common (counts : List ((String × String) × Nat)) (edge_count : Nat) :
    List ((String × String) × Nat) :=
  (sortByCountDesc counts).take edge_count

/-- Stage 1 of graph construction (visualization.py lines 147–155): aggregate,
threshold, take the `edge_count` heaviest pairs, and add an edge for each pair
that is not a removed self-loop and passes the (redundant) minimum check. -/
def graphStage1 (cooc_pairs : List (String × String)) (cfg : BuildConfig) : List Edge :=
  let cooc_count := filterMinCooc (countPairs cooc_pairs) cfg.min_cooc
  (most_common cooc_count cfg.edge_count).filterMap (fun pc =>
    if pc.1.1 = pc.1.2 ∧ cfg.self_loop_mode = "remove" then none
    else if pc.2 < cfg.min_cooc then none
    else some (pc.1.1, pc.1.2, pc.2))

/-- `G.nodes()`: endpoints in networkx insertion order (first occurrence). -/
def nodesOf (E : List Edge) : List String :=
  firstDedup (E.flatMap (fun e => [e.1, e.2.1]))

/-- Adjacency in the undirected edge-list graph. -/
def adjB (E : List Edge) (a b : String) : Bool :=
  E.any (fun e => decide ((e.1 = a ∧ e.2.1 = b) ∨ (e.1 = b ∧ e.2.1 = a)))

/-- Existence of an undirected path (reflexive-transitive closure of
adjacency). -/
def GPath (E : List Edge) (a b : String) : Prop :=
  Relation.ReflTransGen (fun x y => adjB E x y = true) a b

/-- Nodes not yet visited that are adjacent to the visited set: one expansion
step of the reachability computation. -/
def newNodes (E : List Edge) (s : List String) : List String :=
  (nodesOf E).filter (fun y => decide (y ∉ s) && s.any (fun x => adjB E x y))

/-- Fuelled breadth-first closure; fuel `(nodesOf E).length` always reaches the
fixpoint. -/
def bfs (E : List Edge) : Nat → List String → List String
  | 0, s => s
  | fuel + 1, s => if newNodes E s = [] then s else bfs E fuel (s ++ newNodes E s)

/-- The connected component of `a`: every node reachable from `a`. -/
def bfsFrom (E : List Edge) (a : String) : List String :=
  bfs E (nodesOf E).length [a]

/-- The first node in networkx iteration order. -/
def rootOf (E : List Edge) : String :=
  (nodesOf E).headD ""

/-- `nx.is_connected(G)`: every node reachable from the first node. -/
def isConnectedB (E : List Edge) : Bool :=
  (nodesOf E).all (fun x => decide (x ∈ bfsFrom E (rootOf E)))

/-- `nx.connected_components(G)`: the component of each first-unvisited node in
node iteration order. -/
def componentsAux (E : List Edge) : List String → List String → List (List String)
  | [], _ => []
  | n :: ns, visited =>
    if n ∈ visited then componentsAux E ns visited
    else bfsFrom E n :: componentsAux E ns (visited ++ bfsFrom E n)

def componentsOf (E : List Edge) : List (List String) :=
  componentsAux E (nodesOf E) []

/-- `max(components, key=len)`: the first component of maximal size. -/
def maxByLen : List (List String) → List String
  | [] => []
  | c :: cs => cs.foldl (fun best x => if best.length < x.length then x else best) c

/-- `G.subgraph(largest_cc)` in edge-list form: the edges with both endpoints
in the component (a connected component never strands a node of an
add_edge-built graph without an incident inner edge, so the edge list is an
exact representation of the subgraph). -/
def restrictEdges (E : List Edge) (comp : List String) : List Edge :=
  E.filter (fun e => decide (e.1 ∈ comp) && decide (e.2.1 ∈ comp))

/-- Stage 2 (visualization.py lines 160–162): keep only the largest connected
component when the graph is disconnected. -/
def graphStage2 (E : List Edge) : List Edge :=
  if isConnectedB E then E else restrictEdges E (maxByLen (componentsOf E))

/-- Stage 3 (visualization.py lines 164–167): derive
`min_weight = max(1, max_weight // 5)` and rebuild the graph from the edges of
weight at least `min_weight`. -/
def pruneStage (E : List Edge) : List Edge :=
  if E = [] then E
  else
    let max_weight_val := (E.map (fun e => e.2.2)).foldl Nat.max 0
    let min_weight := Nat.max 1 (max_weight_val / 5)
    E.filter (fun e => decide (min_weight ≤ e.2.2))

/-- The graph-building pipeline of `build_network_figure` (visualization.py
lines 147–170; main.py lines 1106–1143 is the same logic): `none` models every
`return None` of the service (the figure drawn from a surviving graph is
determined by it, so the graph is the value of interest). -/
def buildGraph (cooc_pairs : List (String × String)) (cfg : BuildConfig) :
    Option (List Edge) :=
  if nodesOf (graphStage1 cooc_pairs cfg) = [] then none
  else if (nodesOf (pruneStage (graphStage2 (graphStage1 cooc_pairs cfg)))).length < 2 then
    none
  else some (pruneStage (graphStage2 (graphStage1 cooc_pairs cfg)))

/-- Connectivity of an edge-list graph: every node is joined to the first node
by a path. -/
def ConnectedG (E : List Edge) : Prop :=
  ∀ x ∈ nodesOf E, GPath E (rootOf E) x

/-- A pair arises from two positions of a single token sequence. -/
def pairFromLine (p : String × String) (ts : List String) : Prop :=
  ∃ i j, i < j ∧ ∃ (hi : i < ts.length) (hj : j < ts.length),
    p = canonPair (ts.get ⟨i, hi⟩) (ts.get ⟨j, hj⟩)

/-- Failure sub-kind 1 of the spec (§4.5 step 2): no pair meets the minimum
co-occurrence count. -/
def noPairsMeetMin (cooc_pairs : List (String × String)) (cfg : BuildConfig) : Prop :=
  filterMinCooc (countPairs cooc_pairs) cfg.min_cooc = []

/-- Failure sub-kind 2 of the spec (§4.5 step 4): zero nodes after the
self-loop / threshold filtering. -/
def zeroNodesAfterFilter (cooc_pairs : List (String × String)) (cfg : BuildConfig) : Prop :=
  nodesOf (graphStage1 cooc_pairs cfg) = []

/-- Failure sub-kind 3 of the spec (§4.5 step 7): the graph survived stage 1
but fewer than two nodes remain after component selection and weight pruning. -/
def tooSmallAfterPruning (cooc_pairs : List (String × String)) (cfg : BuildConfig) : Prop :=
  nodesOf (graphStage1 cooc_pairs cfg) ≠ [] ∧
  (nodesOf (pruneStage (graphStage2 (graphStage1 cooc_pairs cfg)))).length < 2

instance (cooc_pairs : List (String × String)) (cfg : BuildConfig) :
    Decidable (noPairsMeetMin cooc_pairs cfg) := by
  unfold noPairsMeetMin
  infer_instance

instance (cooc_pairs : List (String × String)) (cfg : BuildConfig) :
    Decidable (zeroNodesAfterFilter cooc_pairs cfg) := by
  unfold zeroNodesAfterFilter
  infer_instance

instance (cooc_pairs : List (String × String)) (cfg : BuildConfig) :
    Decidable (tooSmallAfterPruning cooc_pairs cfg) := by
  unfold tooSmallAfterPruning
  infer_instance

/-- The two rules of the longest-match scenario of claim C5. -/
def ruleAB_X : MergeRule := { len := 2, seq := ["A", "B"], merged := "X" }

def ruleABC_Y : MergeRule := { len := 3, seq := ["A", "B", "C"], merged := "Y" }

/-- A deterministic fake analyzer (the repository's own test suite drives the
service with exactly such a stub). -/
def fakeAnalyzer : Analyzer := fun _ => [("東京", "名詞")]

/-- An analyzer that yields no surfaces — the misconfigured-backend scenario of
claim C4. -/
def nullAnalyzer : Analyzer := fun _ => []

/-- Claim C1 counterexample input: a path graph A—B—C—D whose middle edge is
weak. -/
def cexPairsC1 : List (String × String) :=
  List.replicate 10 ("A", "B") ++ [("B", "C")] ++ List.replicate 10 ("C", "D")

def cfgKeep : BuildConfig := { min_cooc := 1, edge_count := 10, self_loop_mode := "keep" }

/-- The graph the pipeline returns on `cexPairsC1`: pruning dropped the bridge
B—C, leaving two components. -/
def cexEdgesC1 : List Edge := [("A", "B", 10), ("C", "D", 10)]

/-- Claim C2 counterexample inputs: one input failing with "no pairs meeting
the minimum count", one failing with "fewer than two nodes after pruning". -/
def cexPairsC2a : List (String × String) := [("A", "B")]

def cfgC2a : BuildConfig := { min_cooc := 5, edge_count := 10, self_loop_mode := "keep" }

def cexPairsC2b : List (String × String) := [("A", "A"), ("A", "A"), ("A", "A")]

/-- Claim C9 witness input: two co-occurrences of one pair. -/
def pairsC9 : List (String × String) := [("A", "B"), ("A", "B")]

end WordCloud

namespace WordCloud

/-! ### Claim C6: stopword filtering is idempotent -/

theorem tokensFilter_idem (T : List String) (S : List String) :
    tokensFilter S (tokensFilter S T) = tokensFilter S T := by
  unfold tokensFilter
  rw [List.filter_filter]
  congr 1
  funext s
  rw [Bool.and_self]

/-- Claim C6: **Idempotent stopword filtering.** For every token list `T` and
every stopword set `S`, filtering an already-filtered stream with the same set
yields the same stream: `filter (filter T S) S = filter T S`, where `filter` is
the hard-coded condition `s ∉ S ∧ len s > 1` of
`TokenizationService.tokenize_text`. -/
theorem claim_C6_stopword_filter_idempotent :
    ∀ (T S : List String), tokensFilter S (tokensFilter S T) = tokensFilter S T :=
  fun T S => tokensFilter_idem T S

/-! ### Claim C5: the merge-rule engine -/

theorem mergeLoop_nil_rules : ∀ (fuel : Nat) (ts : List String),
    mergeLoop [] fuel ts = ts := by
  intro fuel
  induction fuel with
  | zero => intro ts; rfl
  | succ n ih =>
    intro ts
    cases ts with
    | nil => rfl
    | cons x xs => simpa [mergeLoop, findMatch] using ih xs

/-- Claim C5: **Merge-rule engine semantics.** `apply_merge_rules_to_line`
scans left to right testing rules in length-descending order (stable sort,
insertion order breaking ties), emits the replacement and advances by the
rule's length on the first match, else copies one token and advances by one.
Consequently (a) an empty rule set is the identity transform, and (b) with
rules `{len2: (A,B)→X}` and `{len3: (A,B,C)→Y}` — in either insertion order —
input `[A,B,C]` rewrites to `[Y]`, not `[X,C]`. -/
theorem claim_C5_merge_rule_engine :
    (∀ ts : List String, apply_merge_rules_to_line ts [] = ts) ∧
    apply_merge_rules_to_line ["A", "B", "C"] [ruleAB_X, ruleABC_Y] = ["Y"] ∧
    apply_merge_rules_to_line ["A", "B", "C"] [ruleABC_Y, ruleAB_X] = ["Y"] := by
  refine ⟨fun ts => ?_, by decide, by decide⟩
  simpa [apply_merge_rules_to_line, sortRulesDesc] using mergeLoop_nil_rules ts.length ts

/-! ### Claim C10: the per-line dedup flag is inert in sliding mode -/

/-- Claim C10: **Noninterference of the per-line-deduplication flag in sliding
mode.** Two runs of the co-occurrence extraction that differ only in the
`dedup_pairs_per_line` flag produce the same pair list whenever
`window_mode == "sliding"`: the sliding branch of `build_network_figure` never
reads the flag. -/
theorem claim_C10_dedup_flag_inert_in_sliding_mode :
    ∀ (window_size : Nat) (collapse : Bool) (word_freq tokens : List String)
      (pre_tokens_lines : List (List String)) (original_lines : List String),
      extract_cooc_pairs "sliding" window_size collapse true word_freq tokens
          pre_tokens_lines original_lines =
        extract_cooc_pairs "sliding" window_size collapse false word_freq tokens
          pre_tokens_lines original_lines := by
  intro window_size collapse word_freq tokens pre_tokens_lines original_lines
  simp [extract_cooc_pairs]

/-! ### Claim C7: the sliding-window bound -/

theorem mem_take_exists_get {l : List String} {m : Nat} {y : String}
    (h : y ∈ l.take m) :
    ∃ k, ∃ (hk : k < l.length), k < m ∧ l.get ⟨k, hk⟩ = y := by
  induction l generalizing m with
  | nil => simp at h
  | cons x xs ih =>
    cases m with
    | zero => simp at h
    | succ m =>
      rw [List.take_succ_cons, List.mem_cons] at h
      rcases h with rfl | h
      · exact ⟨0, Nat.succ_pos _, Nat.succ_pos _, rfl⟩
      · obtain ⟨k, hk, hkm, hget⟩ := ih h
        exact ⟨k + 1, Nat.succ_lt_succ hk, Nat.succ_lt_succ hkm, hget⟩

theorem slidingPairs_mem {window_size : Nat} {word_freq : List String} :
    ∀ {ts : List String} {p : String × String},
      p ∈ slidingPairs window_size word_freq ts →
      ∃ i j, i < j ∧ j < i + window_size ∧
        ∃ (hi : i < ts.length) (hj : j < ts.length),
          ts.get ⟨i, hi⟩ ∈ word_freq ∧ ts.get ⟨j, hj⟩ ∈ word_freq ∧
          p = canonPair (ts.get ⟨i, hi⟩) (ts.get ⟨j, hj⟩) := by
  intro ts
  induction ts with
  | nil => intro p h; simp [slidingPairs] at h
  | cons x rest ih =>
    intro p h
    simp only [slidingPairs, List.mem_append] at h
    rcases h with h | h
    · by_cases hx : x ∈ word_freq
      · rw [if_pos hx, List.mem_map] at h
        obtain ⟨y, hy, hpy⟩ := h
        rw [List.mem_filter] at hy
        obtain ⟨hyt, hyf⟩ := hy
        obtain ⟨k, hk, hkm, hget⟩ := mem_take_exists_get hyt
        refine ⟨0, k + 1, Nat.succ_pos _, by omega, Nat.succ_pos _,
          Nat.succ_lt_succ hk, hx, ?_, ?_⟩
        · show rest.get ⟨k, hk⟩ ∈ word_freq
          rw [hget]
          exact of_decide_eq_true hyf
        · show p = canonPair x (rest.get ⟨k, hk⟩)
          rw [hget]
          exact hpy.symm
      · rw [if_neg hx] at h
        simp at h
    · obtain ⟨i, j, hij, hjw, hi, hj, hfi, hfj, hp⟩ := ih h
      exact ⟨i + 1, j + 1, Nat.succ_lt_succ hij, by omega, Nat.succ_lt_succ hi,
        Nat.succ_lt_succ hj, hfi, hfj, hp⟩

/-- Claim C7: **Sliding-window bound.** In sliding mode with window size `W`,
every emitted pair arises from two positions `(i, j)` of the paired token
sequence with `i < j < i + W` — no pair with `j - i ≥ W` or `j ≤ i` is ever
emitted — and both paired tokens are members of the frequency map. -/
theorem claim_C7_sliding_window_bound :
    ∀ (window_size : Nat) (word_freq tokens : List String) (p : String × String),
      p ∈ slidingPairs window_size word_freq tokens →
      ∃ i j, i < j ∧ j < i + window_size ∧
        ∃ (hi : i < tokens.length) (hj : j < tokens.length),
          tokens.get ⟨i, hi⟩ ∈ word_freq ∧ tokens.get ⟨j, hj⟩ ∈ word_freq ∧
          p = canonPair (tokens.get ⟨i, hi⟩) (tokens.get ⟨j, hj⟩) :=
  fun _ _ _ _ h => slidingPairs_mem h

theorem claim_C7_sliding_window_bound_witness :
    (("A", "B") ∈ slidingPairs 2 ["A", "B"] ["A", "B"]) ∧
    (∃ i j, i < j ∧ j < i + 2 ∧
      ∃ (hi : i < (["A", "B"] : List String).length)
        (hj : j < (["A", "B"] : List String).length),
        (["A", "B"] : List String).get ⟨i, hi⟩ ∈ ["A", "B"] ∧
        (["A", "B"] : List String).get ⟨j, hj⟩ ∈ ["A", "B"] ∧
        ("A", "B") = canonPair ((["A", "B"] : List String).get ⟨i, hi⟩)
          ((["A", "B"] : List String).get ⟨j, hj⟩)) :=
  ⟨by decide, claim_C7_sliding_window_bound 2 ["A", "B"] ["A", "B"] ("A", "B") (by decide)⟩

/-! ### Claim C8: line isolation in line mode -/

theorem mem_firstDedupAux {α : Type} [DecidableEq α] :
    ∀ {l : List α} {seen : List α} {x : α}, x ∈ firstDedupAux seen l → x ∈ l := by
  intro l
  induction l with
  | nil => intro seen x h; simp [firstDedupAux] at h
  | cons y ys ih =>
    intro seen x h
    simp only [firstDedupAux] at h
    by_cases hy : y ∈ seen
    · rw [if_pos hy] at h
      exact List.mem_cons_of_mem _ (ih h)
    · rw [if_neg hy] at h
      rcases List.mem_cons.mp h with rfl | h
      · exact List.mem_cons_self _ _
      · exact List.mem_cons_of_mem _ (ih h)

theorem mem_firstDedup {α : Type} [DecidableEq α] {l : List α} {x : α}
    (h : x ∈ firstDedup l) : x ∈ l :=
  mem_firstDedupAux h

theorem allPairs_mem : ∀ {ts : List String} {p : String × String},
    p ∈ allPairs ts → pairFromLine p ts := by
  intro ts
  induction ts with
  | nil => intro p h; simp [allPairs] at h
  | cons x rest ih =>
    intro p h
    simp only [allPairs, List.mem_append] at h
    rcases h with h | h
    · rw [List.mem_map] at h
      obtain ⟨y, hy, hpy⟩ := h
      obtain ⟨⟨k, hk⟩, hget⟩ := List.mem_iff_get.mp hy
      refine ⟨0, k + 1, Nat.succ_pos _, Nat.succ_pos _, Nat.succ_lt_succ hk, ?_⟩
      show p = canonPair x (rest.get ⟨k, hk⟩)
      rw [hget]
      exact hpy.symm
    · obtain ⟨i, j, hij, hi, hj, hp⟩ := ih h
      exact ⟨i + 1, j + 1, Nat.succ_lt_succ hij, Nat.succ_lt_succ hi,
        Nat.succ_lt_succ hj, hp⟩

theorem fbPairs_mem {word_freq : List String} :
    ∀ {ts : List String} {p : String × String},
      p ∈ fbPairs word_freq ts → pairFromLine p ts := by
  intro ts
  induction ts with
  | nil => intro p h; simp [fbPairs] at h
  | cons x rest ih =>
    intro p h
    simp only [fbPairs, List.mem_append] at h
    rcases h with h | h
    · by_cases hx : x ∈ word_freq
      · rw [if_pos hx, List.mem_map] at h
        obtain ⟨y, hy, hpy⟩ := h
        obtain ⟨⟨k, hk⟩, hget⟩ := List.mem_iff_get.mp (List.mem_of_mem_filter hy)
        refine ⟨0, k + 1, Nat.succ_pos _, Nat.succ_pos _, Nat.succ_lt_succ hk, ?_⟩
        show p = canonPair x (rest.get ⟨k, hk⟩)
        rw [hget]
        exact hpy.symm
      · rw [if_neg hx] at h
        simp at h
    · obtain ⟨i, j, hij, hi, hj, hp⟩ := ih h
      exact ⟨i + 1, j + 1, Nat.succ_lt_succ hij, Nat.succ_lt_succ hi,
        Nat.succ_lt_succ hj, hp⟩

theorem linePairsPre_mem {word_freq : List String} {collapse dedup : Bool}
    {surfaces : List String} {p : String × String}
    (h : p ∈ linePairsPre word_freq collapse dedup surfaces) :
    pairFromLine p (processedPreLine word_freq collapse surfaces) := by
  unfold linePairsPre at h
  by_cases hd : dedup
  · rw [if_pos hd] at h
    exact allPairs_mem (mem_firstDedup h)
  · rw [if_neg hd] at h
    exact allPairs_mem h

theorem lineFallbackPairs_mem {word_freq : List String} {collapse dedup : Bool}
    {line : String} {p : String × String}
    (h : p ∈ lineFallbackPairs word_freq collapse dedup line) :
    pairFromLine p (processedFbLine collapse line) := by
  unfold lineFallbackPairs at h
  by_cases hd : dedup
  · rw [if_pos hd] at h
    exact fbPairs_mem (mem_firstDedup h)
  · rw [if_neg hd] at h
    exact fbPairs_mem h

/-- Claim C8: **Line isolation.** In line mode (any non-sliding window mode),
every emitted co-occurrence pair arises from two positions of a single line's
processed token sequence — either a pre-tokenized line (primary branch) or a
joined filtered line (fallback branch, used only when no pre-tokenized lines
exist). No pair is ever formed from tokens of two different lines. -/
theorem claim_C8_line_isolation :
    ∀ (window_mode : String) (window_size : Nat) (collapse dedup : Bool)
      (word_freq tokens : List String) (pre_tokens_lines : List (List String))
      (original_lines : List String) (p : String × String),
      window_mode ≠ "sliding" →
      p ∈ extract_cooc_pairs window_mode window_size collapse dedup word_freq tokens
          pre_tokens_lines original_lines →
      (∃ L ∈ pre_tokens_lines, pairFromLine p (processedPreLine word_freq collapse L)) ∨
      (pre_tokens_lines = [] ∧
        ∃ line ∈ original_lines, pairFromLine p (processedFbLine collapse line)) := by
  intro wm ws collapse dedup wf tokens pre orig p hwm hp
  rw [extract_cooc_pairs, if_neg hwm] at hp
  by_cases hpre : pre ≠ []
  · rw [if_pos hpre] at hp
    left
    obtain ⟨L, hL, hpL⟩ := List.mem_flatMap.mp hp
    exact ⟨L, List.mem_of_mem_filter hL, linePairsPre_mem hpL⟩
  · rw [if_neg hpre] at hp
    right
    obtain ⟨line, hline, hpline⟩ := List.mem_flatMap.mp hp
    exact ⟨not_not.mp hpre, line, List.mem_of_mem_filter hline, lineFallbackPairs_mem hpline⟩

theorem claim_C8_line_isolation_witness :
    (("line" : String) ≠ "sliding") ∧
    (("A", "B") ∈ extract_cooc_pairs "line" 2 false false ["A", "B"] [] [["A", "B"]] []) ∧
    ((∃ L ∈ [["A", "B"]], pairFromLine ("A", "B") (processedPreLine ["A", "B"] false L)) ∨
      ([["A", "B"]] = ([] : List (List String)) ∧
        ∃ line ∈ ([] : List String), pairFromLine ("A", "B") (processedFbLine false line))) :=
  ⟨by decide, by decide,
    claim_C8_line_isolation "line" 2 false false ["A", "B"] [] [["A", "B"]] [] ("A", "B")
      (by decide) (by decide)⟩

/-! ### Membership in the node list of an edge-list graph -/

theorem mem_firstDedupAux_iff {α : Type} [DecidableEq α] :
    ∀ {l seen : List α} {x : α}, x ∈ firstDedupAux seen l ↔ (x ∈ l ∧ x ∉ seen) := by
  intro l
  induction l with
  | nil => intro seen x; simp [firstDedupAux]
  | cons y ys ih =>
    intro seen x
    simp only [firstDedupAux]
    by_cases hy : y ∈ seen
    · rw [if_pos hy, ih]
      simp only [List.mem_cons]
      constructor
      · tauto
      · rintro ⟨h1 | h1, h2⟩
        · exact absurd (h1 ▸ hy) h2
        · exact ⟨h1, h2⟩
    · rw [if_neg hy]
      simp only [List.mem_cons, ih, List.mem_cons]
      by_cases hxy : x = y
      · subst hxy
        tauto
      · tauto

theorem mem_firstDedup_iff {α : Type} [DecidableEq α] {l : List α} {x : α} :
    x ∈ firstDedup l ↔ x ∈ l := by
  unfold firstDedup
  rw [mem_firstDedupAux_iff]
  simp

theorem nodup_firstDedupAux {α : Type} [DecidableEq α] :
    ∀ {l seen : List α}, (firstDedupAux seen l).Nodup := by
  intro l
  induction l with
  | nil => intro seen; simp [firstDedupAux]
  | cons y ys ih =>
    intro seen
    simp only [firstDedupAux]
    by_cases hy : y ∈ seen
    · rw [if_pos hy]; exact ih
    · rw [if_neg hy]
      refine List.nodup_cons.mpr ⟨?_, ih⟩
      intro hmem
      exact (mem_firstDedupAux_iff.mp hmem).2 (List.mem_cons_self _ _)

theorem nodesOf_nodup {E : List Edge} : (nodesOf E).Nodup :=
  nodup_firstDedupAux

theorem mem_nodesOf {E : List Edge} {x : String} :
    x ∈ nodesOf E ↔ ∃ e ∈ E, e.1 = x ∨ e.2.1 = x := by
  unfold nodesOf
  rw [mem_firstDedup_iff, List.mem_flatMap]
  constructor
  · rintro ⟨e, he, hx⟩
    rcases List.mem_cons.mp hx with rfl | hx
    · exact ⟨e, he, Or.inl rfl⟩
    · rcases List.mem_cons.mp hx with rfl | hx
      · exact ⟨e, he, Or.inr rfl⟩
      · simp at hx
  · rintro ⟨e, he, rfl | h⟩
    · exact ⟨e, he, List.mem_cons_self _ _⟩
    · exact ⟨e, he, h ▸ List.mem_cons_of_mem _ (List.mem_cons_self _ _)⟩

/-! ### Claim C9: a non-null graph has at least two nodes and one edge -/

/-- Claim C9: **Graph minimum size.** Whenever `buildGraph` returns a non-null
graph, that graph has at least two nodes and at least one edge, and every node
is an endpoint of some surviving edge (the graph rebuilt after the
minimum-weight pruning contains no isolated node, its nodes arising only from
edges). -/
theorem claim_C9_graph_min_size :
    ∀ (cooc_pairs : List (String × String)) (cfg : BuildConfig) (E : List Edge),
      buildGraph cooc_pairs cfg = some E →
      2 ≤ (nodesOf E).length ∧ 1 ≤ E.length ∧
      ∀ n ∈ nodesOf E, ∃ e ∈ E, e.1 = n ∨ e.2.1 = n := by
  intro ps cfg E h
  unfold buildGraph at h
  by_cases h1 : nodesOf (graphStage1 ps cfg) = []
  · rw [if_pos h1] at h
    exact absurd h (by simp)
  · rw [if_neg h1] at h
    by_cases h2 : (nodesOf (pruneStage (graphStage2 (graphStage1 ps cfg)))).length < 2
    · rw [if_pos h2] at h
      exact absurd h (by simp)
    · rw [if_neg h2] at h
      have hE : E = pruneStage (graphStage2 (graphStage1 ps cfg)) := (Option.some.inj h).symm
      subst hE
      refine ⟨Nat.le_of_not_lt h2, ?_, fun n hn => mem_nodesOf.mp hn⟩
      by_contra hlen
      have hnil : pruneStage (graphStage2 (graphStage1 ps cfg)) = [] := by
        cases hcase : pruneStage (graphStage2 (graphStage1 ps cfg)) with
        | nil => rfl
        | cons e es => rw [hcase] at hlen; simp at hlen
      rw [hnil] at h2
      exact h2 (by decide)

theorem claim_C9_graph_min_size_witness :
    buildGraph pairsC9 cfgKeep = some [("A", "B", 2)] ∧
    2 ≤ (nodesOf [("A", "B", 2)]).length ∧ 1 ≤ ([("A", "B", 2)] : List Edge).length ∧
    ∀ n ∈ nodesOf [("A", "B", 2)],
      ∃ e ∈ ([("A", "B", 2)] : List Edge), e.1 = n ∨ e.2.1 = n :=
  ⟨by decide, claim_C9_graph_min_size pairsC9 cfgKeep [("A", "B", 2)] (by decide)⟩

/-! ### Claim C2: the failure taxonomy of graph construction -/

/-- Claim C2 counterexample: two inputs in different failure classes of the
spec's taxonomy — "no pairs meeting the minimum count" versus "fewer than two
nodes after component/weight pruning" — produce the *same* returned value
(`None`), so the null outcomes are not distinguishable by the caller, let alone
distinct typed results. -/
theorem claim_C2_counterexample_null_indistinguishable :
    noPairsMeetMin cexPairsC2a cfgC2a ∧ tooSmallAfterPruning cexPairsC2b cfgKeep ∧
    buildGraph cexPairsC2a cfgC2a = buildGraph cexPairsC2b cfgKeep :=
  ⟨by decide, by decide, by decide⟩

/-- Claim C2 (amended): every null outcome of graph construction is returned as
the single undistinguished value `None`; the service has exactly two null
gates — zero nodes after the self-loop/threshold filtering, and fewer than two
nodes after component selection and weight pruning — and the no-pairs-meeting-
minimum case is subsumed by the zero-node gate rather than being separately
reported. (The three distinct user-facing messages exist only inside the GUI
monolith `main.py`, which renders them directly instead of returning them.) -/
theorem claim_C2_amended_single_null_value :
    (∀ (cooc_pairs : List (String × String)) (cfg : BuildConfig),
      buildGraph cooc_pairs cfg = none ↔
        (zeroNodesAfterFilter cooc_pairs cfg ∨ tooSmallAfterPruning cooc_pairs cfg)) ∧
    (∀ (cooc_pairs : List (String × String)) (cfg : BuildConfig),
      noPairsMeetMin cooc_pairs cfg → zeroNodesAfterFilter cooc_pairs cfg) := by
  constructor
  · intro ps cfg
    unfold buildGraph zeroNodesAfterFilter tooSmallAfterPruning
    by_cases h1 : nodesOf (graphStage1 ps cfg) = []
    · rw [if_pos h1]
      simp [h1]
    · rw [if_neg h1]
      by_cases h2 : (nodesOf (pruneStage (graphStage2 (graphStage1 ps cfg)))).length < 2
      · rw [if_pos h2]
        simp [h1, h2]
      · rw [if_neg h2]
        simp [h1, h2]
  · intro ps cfg h
    unfold zeroNodesAfterFilter graphStage1
    unfold noPairsMeetMin at h
    rw [h]
    simp [most_common, sortByCountDesc, nodesOf, firstDedup, firstDedupAux]

theorem claim_C2_amended_witness :
    noPairsMeetMin cexPairsC2a cfgC2a ∧ zeroNodesAfterFilter cexPairsC2a cfgC2a :=
  ⟨by decide, claim_C2_amended_single_null_value.2 cexPairsC2a cfgC2a (by decide)⟩

/-! ### Reachability: soundness and completeness of the fuelled closure -/

theorem adjB_symm {E : List Edge} {a b : String} (h : adjB E a b = true) :
    adjB E b a = true := by
  unfold adjB at h ⊢
  rw [List.any_eq_true] at h ⊢
  obtain ⟨e, he, hd⟩ := h
  refine ⟨e, he, ?_⟩
  rw [decide_eq_true_eq] at hd ⊢
  tauto

theorem adjB_mem_right {E : List Edge} {a b : String} (h : adjB E a b = true) :
    b ∈ nodesOf E := by
  unfold adjB at h
  rw [List.any_eq_true] at h
  obtain ⟨e, he, hd⟩ := h
  rw [decide_eq_true_eq] at hd
  rcases hd with ⟨h1, h2⟩ | ⟨h1, h2⟩
  · exact mem_nodesOf.mpr ⟨e, he, Or.inr h2⟩
  · exact mem_nodesOf.mpr ⟨e, he, Or.inl h1⟩

theorem GPath_symm {E : List Edge} {a b : String} (h : GPath E a b) : GPath E b a := by
  unfold GPath at h ⊢
  induction h with
  | refl => exact Relation.ReflTransGen.refl
  | tail _ hbc ih =>
    exact Relation.ReflTransGen.trans (Relation.ReflTransGen.single (adjB_symm hbc)) ih

theorem mem_newNodes {E : List Edge} {s : List String} {z : String} :
    z ∈ newNodes E s ↔ (z ∈ nodesOf E ∧ z ∉ s ∧ ∃ y ∈ s, adjB E y z = true) := by
  unfold newNodes
  simp only [List.mem_filter, Bool.and_eq_true, decide_eq_true_eq, List.any_eq_true]

theorem bfs_subset {E : List Edge} : ∀ (fuel : Nat) (s : List String), s ⊆ bfs E fuel s := by
  intro fuel
  induction fuel with
  | zero => exact fun s _ h => h
  | succ n ih =>
    intro s
    simp only [bfs]
    by_cases h : newNodes E s = []
    · rw [if_pos h]
      exact fun _ hx => hx
    · rw [if_neg h]
      exact fun x hx => ih (s ++ newNodes E s) (List.mem_append_left _ hx)

theorem bfs_sound {E : List Edge} : ∀ (fuel : Nat) (s : List String) (x : String),
    x ∈ bfs E fuel s → ∃ y ∈ s, GPath E y x := by
  intro fuel
  induction fuel with
  | zero => exact fun s x hx => ⟨x, hx, Relation.ReflTransGen.refl⟩
  | succ n ih =>
    intro s x hx
    simp only [bfs] at hx
    by_cases h : newNodes E s = []
    · rw [if_pos h] at hx
      exact ⟨x, hx, Relation.ReflTransGen.refl⟩
    · rw [if_neg h] at hx
      obtain ⟨y, hy, hpath⟩ := ih (s ++ newNodes E s) x hx
      rcases List.mem_append.mp hy with hy | hy
      · exact ⟨y, hy, hpath⟩
      · obtain ⟨_, _, w, hw, hadj⟩ := mem_newNodes.mp hy
        exact ⟨w, hw, Relation.ReflTransGen.trans (Relation.ReflTransGen.single hadj) hpath⟩

theorem newNodes_subset_missing {E : List Edge} {s : List String} :
    ∀ z ∈ newNodes E s, z ∈ (nodesOf E).filter (fun y => decide (y ∉ s)) := by
  intro z hz
  obtain ⟨h1, h2, _⟩ := mem_newNodes.mp hz
  rw [List.mem_filter, decide_eq_true_eq]
  exact ⟨h1, h2⟩

theorem bfs_fix {E : List Edge} : ∀ (fuel : Nat) (s : List String),
    ((nodesOf E).filter (fun y => decide (y ∉ s))).length ≤ fuel →
    newNodes E (bfs E fuel s) = [] := by
  intro fuel
  induction fuel with
  | zero =>
    intro s hs
    have hnil : (nodesOf E).filter (fun y => decide (y ∉ s)) = [] :=
      List.length_eq_zero.mp (Nat.le_zero.mp hs)
    show newNodes E s = []
    rcases hcase : newNodes E s with _ | ⟨z, zs⟩
    · rfl
    · exfalso
      have hz : z ∈ newNodes E s := hcase ▸ List.mem_cons_self _ _
      have hmem := newNodes_subset_missing z hz
      rw [hnil] at hmem
      simp at hmem
  | succ n ih =>
    intro s hs
    simp only [bfs]
    by_cases h : newNodes E s = []
    · rw [if_pos h]
      exact h
    · rw [if_neg h]
      apply ih
      obtain ⟨z, hz⟩ := List.exists_mem_of_ne_nil _ h
      have hzfil : z ∈ (nodesOf E).filter (fun y => decide (y ∉ s)) :=
        newNodes_subset_missing z hz
      have hsub : List.Sublist ((nodesOf E).filter (fun y => decide (y ∉ s ++ newNodes E s)))
          ((nodesOf E).filter (fun y => decide (y ∉ s))) := by
        apply List.monotone_filter_right
        intro a ha
        rw [decide_eq_true_eq] at ha ⊢
        exact fun hc => ha (List.mem_append_left _ hc)
      have hzout : z ∉ (nodesOf E).filter (fun y => decide (y ∉ s ++ newNodes E s)) := by
        intro hc
        rw [List.mem_filter, decide_eq_true_eq] at hc
        exact hc.2 (List.mem_append_right _ hz)
      have hlt : ((nodesOf E).filter (fun y => decide (y ∉ s ++ newNodes E s))).length <
          ((nodesOf E).filter (fun y => decide (y ∉ s))).length := by
        rcases Nat.lt_or_ge ((nodesOf E).filter
            (fun y => decide (y ∉ s ++ newNodes E s))).length
            ((nodesOf E).filter (fun y => decide (y ∉ s))).length with hlt | hge
        · exact hlt
        · exfalso
          have heq := hsub.eq_of_length (Nat.le_antisymm hsub.length_le hge)
          rw [heq] at hzout
          exact hzout hzfil
      omega

theorem bfsFrom_closed {E : List Edge} (a : String) : newNodes E (bfsFrom E a) = [] := by
  unfold bfsFrom
  exact bfs_fix _ _ (List.length_filter_le _ _)

theorem closed_adj {E : List Edge} {s : List String}
    (hclosed : newNodes E s = []) {y z : String} (hy : y ∈ s) (hadj : adjB E y z = true) :
    z ∈ s := by
  by_contra hz
  have hmem : z ∈ newNodes E s := mem_newNodes.mpr ⟨adjB_mem_right hadj, hz, y, hy, hadj⟩
  rw [hclosed] at hmem
  simp at hmem

theorem path_mem_bfsFrom {E : List Edge} {a x : String} (h : GPath E a x) :
    x ∈ bfsFrom E a := by
  unfold GPath at h
  induction h with
  | refl => exact bfs_subset _ _ (List.mem_cons_self _ _)
  | tail _ hbc ih => exact closed_adj (bfsFrom_closed a) ih hbc

theorem isConnectedB_sound {E : List Edge} (h : isConnectedB E = true) :
    ∀ x ∈ nodesOf E, GPath E (rootOf E) x := by
  intro x hx
  unfold isConnectedB at h
  rw [List.all_eq_true] at h
  have hx2 := h x hx
  rw [decide_eq_true_eq] at hx2
  obtain ⟨y, hy, hpath⟩ := bfs_sound _ _ _ hx2
  rcases List.mem_singleton.mp hy with rfl
  exact hpath

theorem adjB_restrict {E : List Edge} {S : List String} {a b : String}
    (ha : a ∈ S) (hb : b ∈ S) (h : adjB E a b = true) :
    adjB (restrictEdges E S) a b = true := by
  unfold adjB at h ⊢
  rw [List.any_eq_true] at h ⊢
  obtain ⟨e, he, hd⟩ := h
  refine ⟨e, ?_, hd⟩
  unfold restrictEdges
  rw [List.mem_filter, Bool.and_eq_true, decide_eq_true_eq, decide_eq_true_eq]
  rw [decide_eq_true_eq] at hd
  rcases hd with ⟨h1, h2⟩ | ⟨h1, h2⟩
  · exact ⟨he, by rw [h1]; exact ha, by rw [h2]; exact hb⟩
  · exact ⟨he, by rw [h1]; exact hb, by rw [h2]; exact ha⟩

theorem path_mem_closed {E : List Edge} {S : List String}
    (hcl : ∀ y z, y ∈ S → adjB E y z = true → z ∈ S) {a x : String}
    (ha : a ∈ S) (h : GPath E a x) : x ∈ S := by
  unfold GPath at h
  induction h with
  | refl => exact ha
  | tail _ hbc ih => exact hcl _ _ ih hbc

theorem path_restrict {E : List Edge} {S : List String}
    (hcl : ∀ y z, y ∈ S → adjB E y z = true → z ∈ S) {a x : String}
    (ha : a ∈ S) (h : GPath E a x) : GPath (restrictEdges E S) a x := by
  unfold GPath at h ⊢
  induction h with
  | refl => exact Relation.ReflTransGen.refl
  | tail hab hbc ih =>
    have hb := path_mem_closed hcl ha hab
    exact Relation.ReflTransGen.tail ih (adjB_restrict hb (hcl _ _ hb hbc) hbc)

theorem componentsAux_mem {E : List Edge} :
    ∀ {ns visited : List String} {c : List String}, c ∈ componentsAux E ns visited →
      ∃ n, c = bfsFrom E n := by
  intro ns
  induction ns with
  | nil => intro visited c h; simp [componentsAux] at h
  | cons n rest ih =>
    intro visited c h
    simp only [componentsAux] at h
    by_cases hn : n ∈ visited
    · rw [if_pos hn] at h
      exact ih h
    · rw [if_neg hn] at h
      rcases List.mem_cons.mp h with rfl | h
      · exact ⟨n, rfl⟩
      · exact ih h

theorem maxByLen_mem_aux : ∀ (cs : List (List String)) (c : List String),
    cs.foldl (fun best x => if best.length < x.length then x else best) c = c ∨
    cs.foldl (fun best x => if best.length < x.length then x else best) c ∈ cs := by
  intro cs
  induction cs with
  | nil => exact fun c => Or.inl rfl
  | cons x rest ih =>
    intro c
    simp only [List.foldl]
    by_cases h : c.length < x.length
    · rw [if_pos h]
      rcases ih x with h1 | h1
      · refine Or.inr ?_
        rw [h1]
        exact List.mem_cons_self _ _
      · exact Or.inr (List.mem_cons_of_mem _ h1)
    · rw [if_neg h]
      rcases ih c with h1 | h1
      · exact Or.inl h1
      · exact Or.inr (List.mem_cons_of_mem _ h1)

theorem maxByLen_form {E : List Edge} {cs : List (List String)}
    (h : ∀ c ∈ cs, ∃ n, c = bfsFrom E n) (hne : maxByLen cs ≠ []) :
    ∃ n, maxByLen cs = bfsFrom E n := by
  cases cs with
  | nil => exact absurd rfl hne
  | cons c rest =>
    show ∃ n, rest.foldl (fun best x => if best.length < x.length then x else best) c =
      bfsFrom E n
    rcases maxByLen_mem_aux rest c with h1 | h1
    · rw [h1]
      exact h c (List.mem_cons_self _ _)
    · exact h _ (List.mem_cons_of_mem _ h1)

theorem mem_nodesOf_restrict {E : List Edge} {S : List String} {x : String}
    (h : x ∈ nodesOf (restrictEdges E S)) : x ∈ S ∧ x ∈ nodesOf E := by
  obtain ⟨e, he, hx⟩ := mem_nodesOf.mp h
  have he2 := he
  unfold restrictEdges at he2
  rw [List.mem_filter, Bool.and_eq_true, decide_eq_true_eq, decide_eq_true_eq] at he2
  obtain ⟨heE, h1, h2⟩ := he2
  refine ⟨?_, mem_nodesOf.mpr ⟨e, heE, hx⟩⟩
  rcases hx with hx | hx
  · rw [← hx]
    exact h1
  · rw [← hx]
    exact h2

/-- The graph kept by `graphStage2` — the whole graph when the connectivity
check passes, else the largest connected component — is always connected. -/
theorem stage2_connected (E : List Edge) : ConnectedG (graphStage2 E) := by
  unfold ConnectedG
  intro x hx
  unfold graphStage2 at hx ⊢
  by_cases hc : isConnectedB E = true
  · rw [if_pos hc] at hx ⊢
    exact isConnectedB_sound hc x hx
  · rw [if_neg hc] at hx ⊢
    have hxS := mem_nodesOf_restrict hx
    have hcompne : maxByLen (componentsOf E) ≠ [] := List.ne_nil_of_mem hxS.1
    have hforms : ∀ c ∈ componentsOf E, ∃ m, c = bfsFrom E m :=
      fun c hmem => componentsAux_mem hmem
    obtain ⟨n, hn⟩ := maxByLen_form hforms hcompne
    have hcl : ∀ y z, y ∈ maxByLen (componentsOf E) → adjB E y z = true →
        z ∈ maxByLen (componentsOf E) := by
      intro y z hy hadj
      rw [hn] at hy ⊢
      exact closed_adj (bfsFrom_closed n) hy hadj
    have hnS : n ∈ maxByLen (componentsOf E) := by
      rw [hn]
      exact bfs_subset _ _ (List.mem_cons_self _ _)
    have hrne : nodesOf (restrictEdges E (maxByLen (componentsOf E))) ≠ [] :=
      List.ne_nil_of_mem hx
    have hroot : rootOf (restrictEdges E (maxByLen (componentsOf E))) ∈
        nodesOf (restrictEdges E (maxByLen (componentsOf E))) := by
      unfold rootOf
      rcases hcase : nodesOf (restrictEdges E (maxByLen (componentsOf E))) with _ | ⟨h0, t0⟩
      · exact absurd hcase hrne
      · simp
    have hrootS := mem_nodesOf_restrict hroot
    have key : ∀ w, w ∈ maxByLen (componentsOf E) → GPath E n w := by
      intro w hw
      rw [hn] at hw
      obtain ⟨y, hy, hp⟩ := bfs_sound _ _ _ hw
      rcases List.mem_singleton.mp hy with rfl
      exact hp
    have hxpath : GPath E n x := key x hxS.1
    have hrpath : GPath E n (rootOf (restrictEdges E (maxByLen (componentsOf E)))) :=
      key _ hrootS.1
    have hxR := path_restrict hcl hnS hxpath
    have hrR := path_restrict hcl hnS hrpath
    exact Relation.ReflTransGen.trans (GPath_symm hrR) hxR

/-! ### Claim C1: connectivity of the output graph -/

/-- Claim C1 counterexample: feeding the pair multiset
`{(A,B): 10, (B,C): 1, (C,D): 10}` with minimum count 1, edge budget 10 and
self-loops kept, the builder returns a non-null graph — but the final
minimum-weight pruning (`min_weight = max(1, 10 // 5) = 2`) has deleted the
bridge `B—C` *after* the largest-component restriction, so the returned graph
`{A—B, C—D}` is disconnected. -/
theorem claim_C1_counterexample_disconnected_output :
    buildGraph cexPairsC1 cfgKeep = some cexEdgesC1 ∧ ¬ ConnectedG cexEdgesC1 := by
  constructor
  · decide
  · intro h
    have hC := h "C" (by decide)
    have hmem := path_mem_bfsFrom hC
    exact absurd hmem (by decide)

/-- Claim C1 (amended): connectivity is guaranteed up to and including the
largest-connected-component restriction — for every pair multiset and
configuration, the graph `graphStage2` hands to the pruning step is
connected — but the subsequent minimum-weight pruning can disconnect it, so the
non-null output graph itself need not be connected (it merely contains no
isolated node, claim C9). -/
theorem claim_C1_amended_connected_before_pruning :
    ∀ (cooc_pairs : List (String × String)) (cfg : BuildConfig),
      ConnectedG (graphStage2 (graphStage1 cooc_pairs cfg)) :=
  fun cooc_pairs cfg => stage2_connected (graphStage1 cooc_pairs cfg)

theorem claim_C1_amended_witness :
    GPath (graphStage2 (graphStage1 pairsC9 cfgKeep))
      (rootOf (graphStage2 (graphStage1 pairsC9 cfgKeep))) "B" :=
  claim_C1_amended_connected_before_pruning pairsC9 cfgKeep "B" (by decide)

/-! ### Claim C3: the minimum-length invariant of stopword filtering -/

theorem tokensFilter_length {S l : List String} {t : String}
    (h : t ∈ tokensFilter S l) : 2 ≤ t.length := by
  unfold tokensFilter at h
  rw [List.mem_filter, Bool.and_eq_true, decide_eq_true_eq, decide_eq_true_eq] at h
  omega

/-- Claim C3: **Minimum-length invariant** — and where it breaks. The
hard-coded `len > 1` condition holds on the service's paths: no token of length
below 2 survives `TokenizationService.tokenize_text`'s stopword filter nor
`TokenizationService.merge_lines`' merge-then-filter path, for any stopword
set. But the GUI monolith's merge-then-filter path
(`apply_merge_rules_and_update_edit_area`, main.py line 1727) filters with
`len(t) > 0` instead of `len(t) > 1`: the length-1 token `あ` (no rules, empty
stopword set) survives it, contradicting the invariant the claim states for
every filtering path. -/
theorem claim_C3_length_invariant :
    (∀ (analyze : Analyzer) (text : String) (stop_words : List String),
      ∀ t ∈ (tokenize_text analyze text stop_words).tokens, 2 ≤ t.length) ∧
    (∀ (pre_tokens_lines : List (List String)) (merge_rules : List MergeRule)
      (stop_words : List String),
      ∀ t ∈ (merge_lines pre_tokens_lines merge_rules stop_words).2, 2 ≤ t.length) ∧
    ("あ" ∈ main_merge_filtered_tokens [["あ"]] [] [] ∧ ("あ" : String).length = 1) := by
  refine ⟨?_, ?_, by decide, by decide⟩
  · intro analyze text stop_words t ht
    exact tokensFilter_length ht
  · intro pre_tokens_lines merge_rules stop_words t ht
    simp only [merge_lines] at ht
    obtain ⟨line, _, htl⟩ := List.mem_flatMap.mp ht
    rw [List.mem_filter, Bool.and_eq_true, decide_eq_true_eq, decide_eq_true_eq] at htl
    omega

theorem claim_C3_length_invariant_witness :
    2 ≤ ("東京" : String).length :=
  claim_C3_length_invariant.1 fakeAnalyzer "x" [] "東京" (by decide)

/-! ### Claim C4: reporting of an analyzer that yields nothing -/

/-- Claim C4 counterexample: the extracted service does *not* report an
analysis failure. With an analyzer yielding zero surfaces, the non-empty input
`"x"` produces the very same ordinary `TokenizationResult` as the empty input —
an empty token stream with no error indication of any kind, so the outcome is
not distinguishable from the empty-input case. -/
theorem claim_C4_counterexample_service_silent :
    ("x" : String) ≠ "" ∧ nullAnalyzer "x" = [] ∧
    tokenize_text nullAnalyzer "x" [] = tokenize_text nullAnalyzer "" [] :=
  ⟨by decide, rfl, by decide⟩

/-- Claim C4 (amended): the report exists only in the GUI entry point. For
every analyzer, stopword set and input whose stripped text is non-empty, when
the analyzer yields zero surfaces `JapaneseTextAnalyzer.tokenize_text`
(main.py lines 705–708) reports the analysis failure as an outcome distinct
from the empty-input warning; `TokenizationService.tokenize_text` instead
returns an ordinary empty result (see the counterexample). -/
theorem claim_C4_amended_gui_reports_failure :
    ∀ (analyze : Analyzer) (raw_text : String) (stop_words : List String),
      pyStrip raw_text ≠ "" →
      analyze (pyStrip raw_text) = [] →
      main_tokenize_text analyze raw_text stop_words = MainTokenizeOutcome.analysisFailed ∧
      MainTokenizeOutcome.analysisFailed ≠ MainTokenizeOutcome.emptyInput := by
  intro analyze raw_text stop_words hne hnul
  refine ⟨?_, by decide⟩
  have hsurf : (parse_with_pos analyze (pyStrip raw_text)).1 = [] := by
    unfold parse_with_pos
    rw [hnul]
    rfl
  simp only [main_tokenize_text]
  rw [if_neg hne]
  simp [hsurf]

theorem claim_C4_amended_witness :
    pyStrip "x" ≠ "" ∧ nullAnalyzer (pyStrip "x") = [] ∧
    main_tokenize_text nullAnalyzer "x" [] = MainTokenizeOutcome.analysisFailed :=
  ⟨by decide, rfl,
    (claim_C4_amended_gui_reports_failure nullAnalyzer "x" [] (by decide) rfl).1⟩

end WordCloud
